import Mathlib

/-!
Shallow embedding of the reputation-fuzz attack models (ladder attack and
surge attack) and verification of the specification's claims about them.

All machine integers in the source are Go `uint64`; they are embedded as
`Nat` with explicit reduction modulo `2 ^ 64` at every multiplication and
addition (Go division and guarded subtraction cannot wrap).  A Go runtime
panic (division by zero) is modelled as an explicit error value, clearly
distinguished from the error results the source returns deliberately.
-/

/-- Modulus of Go's `uint64` arithmetic. -/
def uint64Mod : Nat := 2 ^ 64

/-- Go `uint64` multiplication (wraps modulo `2 ^ 64`). -/
def mul64 (a b : Nat) : Nat := a * b % uint64Mod

/-- Go `uint64` addition (wraps modulo `2 ^ 64`). -/
def add64 (a b : Nat) : Nat := (a + b) % uint64Mod

/-- Go `uint64` subtraction (wraps modulo `2 ^ 64`; callers keep both
arguments below `uint64Mod`). -/
def sub64 (a b : Nat) : Nat := (a + uint64Mod - b % uint64Mod) % uint64Mod

/-- Equality of `Except` results is decidable, so concrete runs of the
embedded functions can be checked by `decide`. -/
instance {ε α : Type} [DecidableEq ε] [DecidableEq α] : DecidableEq (Except ε α)
  | .error e, .error f =>
    if h : e = f then isTrue (h ▸ rfl) else isFalse (fun hc => h (Except.error.inj hc))
  | .error _, .ok _ => isFalse Except.noConfusion
  | .ok _, .error _ => isFalse Except.noConfusion
  | .ok a, .ok b =>
    if h : a = b then isTrue (h ▸ rfl) else isFalse (fun hc => h (Except.ok.inj hc))

/-- Source: `revenuePeriodWeeks = 2` — revenue is tracked over 2 weeks. -/
def revenuePeriodWeeks : Nat := 2

/-- Source: `reputationPeriodWeeks = 24` — reputation is tracked over
24 weeks. -/
def reputationPeriodWeeks : Nat := 24

/-- Source struct `channel`: one hop's accrued standing with its upstream
peer and the revenue threshold it imposes downstream. -/
structure channel where
  incomingReputation : Nat
  outgoingRevenue : Nat
deriving DecidableEq

/-- Source struct `ladderingAttack`: the ordered chain of channels. -/
structure ladderingAttack where
  channels : List channel
deriving DecidableEq

/-- Source struct `trafficFlow`: the percentage of the outgoing link's
traffic contributed by the preceding node (a Go `uint8`). -/
structure trafficFlow where
  trafficPortion : Nat
deriving DecidableEq

/-- Source struct `ladderingAttackCfg`. -/
structure ladderingAttackCfg where
  firstNodeTraffic : Nat
  trafficFlows : List trafficFlow
deriving DecidableEq

/-- Failure modes of ladder construction.  `tooFewChannels` is the explicit
`fmt.Errorf` result for fewer than three flows; `divByZero` models the Go
runtime panic raised by `incomingTraffic * 100 / 0` (the source performs
this division unchecked). -/
inductive buildFailure where
  | tooFewChannels
  | divByZero
deriving DecidableEq

/-- The loop body of `newLadderingAttack`: walk the traffic flows, keeping
the running incoming traffic, and append one channel per flow.  Mirrors

```
incomingTraffic = incomingTraffic * 100 / uint64(traffic.trafficPortion)
outgoingRevenue := incomingTraffic * revenuePeriodWeeks / reputationPeriodWeeks
channels = append(channels, channel{incomingTraffic, outgoingRevenue})
```

Division by a zero `trafficPortion` panics in Go; that is the
`.error .divByZero` case. -/
def buildChannels (incomingTraffic : Nat) : List trafficFlow → Except buildFailure (List channel)
  | [] => .ok []
  | f :: rest =>
    if f.trafficPortion = 0 then .error .divByZero
    else
      let next := mul64 incomingTraffic 100 / f.trafficPortion
      match buildChannels next rest with
      | .error e => .error e
      | .ok cs =>
        .ok ({ incomingReputation := next,
               outgoingRevenue := mul64 next revenuePeriodWeeks / reputationPeriodWeeks } :: cs)

/-- Source `newLadderingAttack`: reject configurations with fewer than three
traffic flows, otherwise build the channel chain. -/
def newLadderingAttack (cfg : ladderingAttackCfg) : Except buildFailure ladderingAttack :=
  if cfg.trafficFlows.length < 3 then .error .tooFewChannels
  else
    match buildChannels cfg.firstNodeTraffic cfg.trafficFlows with
    | .error e => .error e
    | .ok cs => .ok ⟨cs⟩

/-- One hop's endorsable capacity, from the source line

```
currentHopEndorsed := (candidateReputation - channel.outgoingRevenue) * 90 / (htlcHold * 10 * 60)
```

The subtraction is evaluated only on the path where
`candidateReputation ≥ channel.outgoingRevenue`, so truncated `Nat`
subtraction agrees with the wrapping `uint64` subtraction there. -/
def hopCap (htlcHold candidateReputation : Nat) (c : channel) : Nat :=
  mul64 (candidateReputation - c.outgoingRevenue) 90 / (mul64 (mul64 htlcHold 10) 60)

/-- The running-minimum update of the source loop:
`if totalEndorsed == 0 || currentHopEndorsed < totalEndorsed { totalEndorsed = currentHopEndorsed }`. -/
def endorsedUpdate (totalEndorsed currentHopEndorsed : Nat) : Nat :=
  if totalEndorsed = 0 ∨ currentHopEndorsed < totalEndorsed then currentHopEndorsed
  else totalEndorsed

/-- The loop of `totalEndorsedOnTarget`, walking every channel but the last
with the current candidate reputation and the running endorsed total.
Returns `0` as soon as a hop's threshold is missed or a hop's capacity
truncates to zero; after a hop, the candidate reputation becomes that hop's
`incomingReputation`. -/
def endorsedWalk (htlcHold : Nat) (candidateReputation totalEndorsed : Nat) :
    List channel → Nat
  | [] => totalEndorsed
  | c :: rest =>
    if candidateReputation < c.outgoingRevenue then 0
    else
      let currentHopEndorsed := hopCap htlcHold candidateReputation c
      if currentHopEndorsed = 0 then 0
      else endorsedWalk htlcHold c.incomingReputation
        (endorsedUpdate totalEndorsed currentHopEndorsed) rest

/-- Source `totalEndorsedOnTarget`: the loop runs for
`i = 0 .. len(channels)-2`, i.e. over every channel except the final one. -/
def totalEndorsedOnTarget (l : ladderingAttack) (attackerPayment htlcHold : Nat) : Nat :=
  endorsedWalk htlcHold attackerPayment 0 l.channels.dropLast

/-- Source `htlcReputationCost`: `(amount * height * 10 * 60) / 90`. -/
def htlcReputationCost (amount height : Nat) : Nat :=
  mul64 (mul64 (mul64 amount height) 10) 60 / 90

/-- Source struct `attackOutcome`. -/
structure attackOutcome where
  targetReputation : Nat
  targetThreshold : Nat
  reputationChange : Nat
  targetCost : Nat
deriving DecidableEq

/-- Source `ladderCheaper`: `targetCost > attackerPayment`. -/
def attackOutcome.ladderCheaper (a : attackOutcome) (attackerPayment : Nat) : Bool :=
  attackerPayment < a.targetCost

/-- Source `lostReputation`: `targetReputation < targetThreshold + reputationChange`. -/
def attackOutcome.lostReputation (a : attackOutcome) : Bool :=
  a.targetReputation < add64 a.targetThreshold a.reputationChange

/-- Source `effective`: both predicates must hold. -/
def attackOutcome.effective (a : attackOutcome) (attackerPayment : Nat) : Bool :=
  a.ladderCheaper attackerPayment && a.lostReputation

/-- Alias for the result type, usable inside the method below whose own name
shadows the structure's. -/
abbrev attackOutcomeTy := attackOutcome

/-- Source method `attackOutcome` on `ladderingAttack`: evaluate the attack
for a propagated endorsed amount and hold time.  The source indexes
`channels[chanCount-1]` and `channels[chanCount-2]` directly (the ladder
invariant guarantees at least three channels); the embedding uses `getD`
with an irrelevant default for totality. -/
def ladderingAttack.attackOutcome (l : ladderingAttack) (totalEndorsed htlcHold : Nat) :
    attackOutcomeTy :=
  let chanCount := l.channels.length
  let finalNodeRevenue := (l.channels.getD (chanCount - 1) ⟨0, 0⟩).outgoingRevenue
  let targetNode := l.channels.getD (chanCount - 2) ⟨0, 0⟩
  let slowJamCost := htlcReputationCost totalEndorsed htlcHold
  let outcome : attackOutcomeTy :=
    { targetReputation := targetNode.incomingReputation
      targetThreshold := finalNodeRevenue
      reputationChange := 0
      targetCost := add64 targetNode.outgoingRevenue slowJamCost }
  if targetNode.incomingReputation < finalNodeRevenue then outcome
  else { outcome with reputationChange := slowJamCost }

/-- The end-to-end evaluation used by the fuzz harness: propagate the
attacker's payment along the ladder, evaluate the outcome, and ask whether
the attack is effective for that same payment. -/
def ladderRunEffective (l : ladderingAttack) (attackerPayment htlcHold : Nat) : Bool :=
  (l.attackOutcome (totalEndorsedOnTarget l attackerPayment htlcHold) htlcHold).effective
    attackerPayment

/-- Source constant `minimumHTLCReputation = 17_00_000` (msat). -/
def minimumHTLCReputation : Nat := 1700000

/-- Source struct `surgeAttackOutcome`. -/
structure surgeAttackOutcome where
  cutoffReputation : Nat
  peaceRevenue : Nat
  attackRevenue : Nat
deriving DecidableEq

/-- Failure modes of the surge model: the `fmt.Errorf` for an out-of-range
cutoff index and the `fmt.Errorf` invariant violation in `success`. -/
inductive surgeFailure where
  | cutoffOutOfRange
  | invariantViolation
deriving DecidableEq

/-- Source `success` on `surgeAttackOutcome`: no attack when the cutoff
reputation is below peace revenue plus the minimum-HTLC floor; invariant
violation when attack revenue exceeds peace revenue; otherwise the attack
succeeds when what the attacker pays plus residual honest revenue is below
peacetime revenue. -/
def surgeAttackOutcome.success (s : surgeAttackOutcome) : Except surgeFailure Bool :=
  let htlcEndorsed := htlcReputationCost minimumHTLCReputation 100
  if s.cutoffReputation < add64 s.peaceRevenue htlcEndorsed then .ok false
  else
    let attackerPays := sub64 s.cutoffReputation s.peaceRevenue
    if s.peaceRevenue < s.attackRevenue then .error .invariantViolation
    else .ok (decide (add64 attackerPays s.attackRevenue < s.peaceRevenue))

/-- Source `revenueFromReputation`:
`reputation * revenuePeriodWeeks / reputationPeriodWeeks`. -/
def revenueFromReputation (reputation : Nat) : Nat :=
  mul64 reputation revenuePeriodWeeks / reputationPeriodWeeks

/-- The accumulation loop of `surgeAttack` over the sorted peers, carrying
the index, the two-week (peacetime) revenue, the attack revenue and the
reputation to cut off.  Returns the three accumulators. -/
def surgeLoop (cutoffIndex : Nat) (i twoWeekRevenue attackRevenue reputationToCutOff : Nat) :
    List Nat → Nat × Nat × Nat
  | [] => (twoWeekRevenue, attackRevenue, reputationToCutOff)
  | reputation :: rest =>
    let peerContribution := revenueFromReputation reputation
    let twoWeek := add64 twoWeekRevenue peerContribution
    if i ≤ cutoffIndex then
      surgeLoop cutoffIndex (i + 1) twoWeek attackRevenue reputation rest
    else
      surgeLoop cutoffIndex (i + 1) twoWeek (add64 attackRevenue peerContribution)
        reputationToCutOff rest

/-- Source `surgeAttack`.  The Go function first sorts the caller's slice
`honestPeers` in place ascending (`sort.Slice`); the embedding makes that
mutation explicit by also returning the slice's final contents (the sorted
permutation of a list of numbers is unique, so `insertionSort` computes
exactly the slice Go leaves behind). -/
def surgeAttack (honestPeers : List Nat) (cutoffIndex : Nat) :
    Except surgeFailure (surgeAttackOutcome × List Nat) :=
  if honestPeers.length ≤ cutoffIndex then .error .cutoffOutOfRange
  else
    let sorted := honestPeers.insertionSort (· ≤ ·)
    let acc := surgeLoop cutoffIndex 0 0 0 0 sorted
    .ok (⟨acc.2.2, acc.1, acc.2.1⟩, sorted)

/-- Error result of the hold-duration-validating endorsement propagator. -/
inductive endorseFailure where
  | insufficientHoldDuration
deriving DecidableEq

/-- Protocol maximum for the hold duration (the network's maximum CLTV
budget used by the harness: hold durations above `2016` are discarded). -/
def maxHoldDuration : Nat := 2016

/-- Modelled from the spec: the final, error-returning version of
`totalEndorsedOnTarget` is not present under `src/` — only its callers are
(the tests check `require.NoError` and `errors.Is(err, errInsufficientCltv)`
against it).  Per spec section 4.2 the propagator's hold duration "must be
> 0 and ≤ a protocol maximum" and the function "fails with
`InsufficientHoldDurationError` when `holdDuration` is `0` or otherwise
invalid for the capacity formula (division term must never be zero)";
otherwise it computes the same propagated endorsed amount as the untyped
version. -/
def totalEndorsedOnTargetChecked (l : ladderingAttack) (attackerPayment htlcHold : Nat) :
    Except endorseFailure Nat :=
  if htlcHold = 0 ∨ maxHoldDuration < htlcHold then .error .insufficientHoldDuration
  else .ok (totalEndorsedOnTarget l attackerPayment htlcHold)

/-!
Claim-side restatements.  These definitions follow the wording of the
specification's claims (running-traffic recurrence, per-hop candidate
reputation and capacity lists) and are compared with the source-embedded
functions above by the theorems below.
-/

/-- The spec's builder recurrence: starting from the first node's traffic,
each flow percentage `p` replaces the running total by
`running * 100 / p` (uint64 multiplication, truncating division). -/
def runningTraffic (firstNodeTraffic : Nat) (portions : List Nat) : Nat :=
  portions.foldl (fun running p => mul64 running 100 / p) firstNodeTraffic

/-- The channel the spec's recurrence predicts at position `i`: the running
total after the first `i + 1` flows, paired with its 2-week / 24-week
revenue projection. -/
def channelAt (firstNodeTraffic : Nat) (flows : List trafficFlow) (i : Nat) : channel :=
  let running :=
    runningTraffic firstNodeTraffic ((flows.take (i + 1)).map trafficFlow.trafficPortion)
  { incomingReputation := running,
    outgoingRevenue := mul64 running revenuePeriodWeeks / reputationPeriodWeeks }

/-- The per-hop capacities of the spec's propagation walk: candidate
reputation starts at the attacker's payment and, after each hop, becomes
that hop's `incomingReputation`. -/
def capsList (htlcHold candidateReputation : Nat) : List channel → List Nat
  | [] => []
  | c :: rest =>
    hopCap htlcHold candidateReputation c :: capsList htlcHold c.incomingReputation rest

/-- The spec's non-degeneracy condition on the walk: every traversed hop's
candidate reputation clears its threshold and every traversed hop's
capacity is non-zero. -/
def allPass (htlcHold candidateReputation : Nat) : List channel → Bool
  | [] => true
  | c :: rest =>
    decide (c.outgoingRevenue ≤ candidateReputation) &&
      decide (1 ≤ hopCap htlcHold candidateReputation c) &&
      allPass htlcHold c.incomingReputation rest

/-- The build loop succeeds on any flow list free of zero percentages and
produces exactly the channels predicted by the spec's recurrence. -/
theorem buildChannels_ok (flows : List trafficFlow) : ∀ t : Nat,
    (∀ f ∈ flows, f.trafficPortion ≠ 0) →
    buildChannels t flows = .ok ((List.range flows.length).map (channelAt t flows)) := by
  induction flows with
  | nil => intro t _; rfl
  | cons f rest ih =>
    intro t h
    have hf : f.trafficPortion ≠ 0 := h f (List.mem_cons_self f rest)
    have hstep := ih (mul64 t 100 / f.trafficPortion)
      (fun g hg => h g (List.mem_cons_of_mem f hg))
    simp only [buildChannels, if_neg hf, hstep, List.length_cons, List.range_succ_eq_map,
      List.map_cons, List.map_map]
    refine congrArg Except.ok ?_
    refine congrArg₂ List.cons rfl ?_
    exact (List.map_congr_left fun i _ => rfl).symm

/-- C1: for every `firstNodeTraffic` and every list of at least three flow
percentages in `[1, 100]`, `newLadderingAttack` succeeds and returns exactly
one channel per flow, the `i`-th channel carrying the running traffic after
the first `i + 1` steps of the recurrence `running = running * 100 / p`
(uint64 arithmetic, truncating division) as `incomingReputation` and its
`* 2 / 24` window projection as `outgoingRevenue`; the regression scenario
`firstNodeTraffic = 120000`, `trafficFlows = [100, 10, 25, 50]` yields
reputations `[120000, 1200000, 4800000, 9600000]` and revenues
`[10000, 100000, 400000, 800000]`. -/
theorem ladder_builder_recurrence (t : Nat) (flows : List trafficFlow)
    (h3 : 3 ≤ flows.length)
    (hp : ∀ f ∈ flows, 1 ≤ f.trafficPortion ∧ f.trafficPortion ≤ 100) :
    newLadderingAttack ⟨t, flows⟩ =
      .ok ⟨(List.range flows.length).map (channelAt t flows)⟩ ∧
    newLadderingAttack ⟨120000, [⟨100⟩, ⟨10⟩, ⟨25⟩, ⟨50⟩]⟩ =
      .ok ⟨[⟨120000, 10000⟩, ⟨1200000, 100000⟩, ⟨4800000, 400000⟩, ⟨9600000, 800000⟩]⟩ := by
  constructor
  · have hne : ¬ flows.length < 3 := Nat.not_lt.mpr h3
    have h0 : ∀ f ∈ flows, f.trafficPortion ≠ 0 :=
      fun f hf => Nat.one_le_iff_ne_zero.mp (hp f hf).1
    simp only [newLadderingAttack, if_neg hne, buildChannels_ok flows t h0]
  · decide

/-- Witness for C1 at the regression input. -/
theorem ladder_builder_recurrence_witness :
    newLadderingAttack ⟨120000, [⟨100⟩, ⟨10⟩, ⟨25⟩, ⟨50⟩]⟩ =
      .ok ⟨(List.range 4).map (channelAt 120000 [⟨100⟩, ⟨10⟩, ⟨25⟩, ⟨50⟩])⟩ :=
  (ladder_builder_recurrence 120000 [⟨100⟩, ⟨10⟩, ⟨25⟩, ⟨50⟩] (by decide)
    (by decide)).1

/-- C5: the source builder rejects short flow lists but does not validate
percentages: on a zero flow percentage it divides by zero (a Go runtime
panic, modelled as `.error .divByZero`), which is not the explicit config
error the claim requires. -/
theorem builder_zero_percentage_divides_by_zero :
    newLadderingAttack ⟨100, [⟨0⟩, ⟨50⟩, ⟨50⟩]⟩ = .error .divByZero ∧
    buildFailure.divByZero ≠ buildFailure.tooFewChannels := by decide

/-- C7: the source builder performs no revenue-monotonicity validation: the
out-of-range percentage `200` is accepted and produces a ladder whose
`outgoingRevenue` sequence `[83, 41, 41]` is decreasing. -/
theorem builder_accepts_decreasing_revenue :
    newLadderingAttack ⟨1000, [⟨100⟩, ⟨200⟩, ⟨100⟩]⟩ =
      .ok ⟨[⟨1000, 83⟩, ⟨500, 41⟩, ⟨500, 41⟩]⟩ ∧ (41 : Nat) < 83 := by decide

/-- If some traversed hop misses its threshold or has zero capacity, the
endorsement walk returns `0`, whatever the accumulator holds. -/
theorem endorsedWalk_of_allPass_false (htlcHold : Nat) :
    ∀ (hops : List channel) (cand total : Nat),
      allPass htlcHold cand hops = false → endorsedWalk htlcHold cand total hops = 0 := by
  intro hops
  induction hops with
  | nil => intro cand total h; simp [allPass] at h
  | cons c rest ih =>
    intro cand total h
    by_cases h1 : cand < c.outgoingRevenue
    · simp [endorsedWalk, if_pos h1]
    · have h1' : c.outgoingRevenue ≤ cand := Nat.not_lt.mp h1
      by_cases h2 : hopCap htlcHold cand c = 0
      · simp [endorsedWalk, if_neg h1, h2]
      · have h3 : allPass htlcHold c.incomingReputation rest = false := by
          cases hr : allPass htlcHold c.incomingReputation rest with
          | false => rfl
          | true =>
            exfalso
            have htrue : allPass htlcHold cand (c :: rest) = true := by
              simp only [allPass, Bool.and_eq_true, decide_eq_true_eq]
              exact ⟨⟨h1', Nat.one_le_iff_ne_zero.mpr h2⟩, hr⟩
            rw [htrue] at h
            cases h
        simp [endorsedWalk, if_neg h1, h2, ih _ _ h3]

/-- If every traversed hop passes, the walk folds the running-minimum update
over the per-hop capacity list. -/
theorem endorsedWalk_of_allPass_true (htlcHold : Nat) :
    ∀ (hops : List channel) (cand total : Nat),
      allPass htlcHold cand hops = true →
      endorsedWalk htlcHold cand total hops =
        (capsList htlcHold cand hops).foldl endorsedUpdate total := by
  intro hops
  induction hops with
  | nil => intro cand total _; rfl
  | cons c rest ih =>
    intro cand total h
    simp only [allPass, Bool.and_eq_true, decide_eq_true_eq] at h
    obtain ⟨⟨h1, h2⟩, h3⟩ := h
    have h1' : ¬ cand < c.outgoingRevenue := Nat.not_lt.mpr h1
    have h2' : ¬ hopCap htlcHold cand c = 0 := Nat.one_le_iff_ne_zero.mp h2
    simp only [endorsedWalk, if_neg h1', if_neg h2', capsList, List.foldl_cons, ih _ _ h3]

/-- On a positive accumulator and positive capacities, the source's
running-minimum update is the minimum. -/
theorem foldl_endorsedUpdate_eq_min :
    ∀ (caps : List Nat) (total : Nat), 1 ≤ total → (∀ x ∈ caps, 1 ≤ x) →
      caps.foldl endorsedUpdate total = caps.foldl min total := by
  intro caps
  induction caps with
  | nil => intro total _ _; rfl
  | cons a l ih =>
    intro total ht hc
    have ha : 1 ≤ a := hc a (List.mem_cons_self a l)
    have hupd : endorsedUpdate total a = min total a := by
      unfold endorsedUpdate
      rcases Nat.lt_or_ge a total with h | h
      · rw [if_pos (Or.inr h), Nat.min_eq_right (Nat.le_of_lt h)]
      · have hnot : ¬ (total = 0 ∨ a < total) := fun hor =>
          hor.elim (fun h0 => (Nat.one_le_iff_ne_zero.mp ht) h0)
            (fun hl => (Nat.not_lt.mpr h) hl)
        rw [if_neg hnot, Nat.min_eq_left h]
    rw [List.foldl_cons, List.foldl_cons, hupd]
    exact ih (min total a) (le_min ht ha) (fun x hx => hc x (List.mem_cons_of_mem a hx))

/-- A fold of `min` lands on its start value or on a list element. -/
theorem foldl_min_mem : ∀ (l : List Nat) (a : Nat), l.foldl min a = a ∨ l.foldl min a ∈ l := by
  intro l
  induction l with
  | nil => intro a; exact Or.inl rfl
  | cons b t ih =>
    intro a
    rw [List.foldl_cons]
    rcases ih (min a b) with h | h
    · rcases min_choice a b with hm | hm
      · exact Or.inl (h.trans hm)
      · exact Or.inr (by rw [h, hm]; exact List.mem_cons_self b t)
    · exact Or.inr (List.mem_cons_of_mem b h)

/-- A fold of `min` is bounded by its start value. -/
theorem foldl_min_le_start : ∀ (l : List Nat) (a : Nat), l.foldl min a ≤ a := by
  intro l
  induction l with
  | nil => intro a; exact le_refl a
  | cons b t ih =>
    intro a
    rw [List.foldl_cons]
    exact le_trans (ih (min a b)) (min_le_left a b)

/-- A fold of `min` is bounded by every list element. -/
theorem foldl_min_le_mem : ∀ (l : List Nat) (a x : Nat), x ∈ l → l.foldl min a ≤ x := by
  intro l
  induction l with
  | nil => intro a x hx; cases hx
  | cons b t ih =>
    intro a x hx
    rw [List.foldl_cons]
    rcases List.mem_cons.mp hx with rfl | hx'
    · exact le_trans (foldl_min_le_start t (min a x)) (min_le_right a x)
    · exact ih (min a b) x hx'

/-- Under the pass condition, every per-hop capacity is positive. -/
theorem capsList_pos (htlcHold : Nat) :
    ∀ (hops : List channel) (cand : Nat), allPass htlcHold cand hops = true →
      ∀ x ∈ capsList htlcHold cand hops, 1 ≤ x := by
  intro hops
  induction hops with
  | nil =>
    intro cand _ x hx
    simp [capsList] at hx
  | cons c rest ih =>
    intro cand h x hx
    simp only [allPass, Bool.and_eq_true, decide_eq_true_eq] at h
    obtain ⟨⟨h1, h2⟩, h3⟩ := h
    simp only [capsList, List.mem_cons] at hx
    rcases hx with rfl | hx'
    · exact h2
    · exact ih _ h3 x hx'

/-- C2: for every ladder of at least three channels, attacker payment and
hold duration in the valid range, `totalEndorsedOnTarget` walks every
channel but the last with the candidate reputation starting at the payment
and becoming each hop's `incomingReputation` afterwards; when every
traversed hop clears its threshold with non-zero truncated capacity
`(reputation - threshold) * 90 / (holdDuration * 10 * 60)` the result is
the minimum of those capacities, and otherwise it is `0`; on the regression
ladder, payment `30000` at hold `300` endorses `10`. -/
theorem endorsement_propagation_minimum (chans : List channel) (payment hold : Nat)
    (h3 : 3 ≤ chans.length) (h1 : 1 ≤ hold) (h2 : hold ≤ 2016) :
    (allPass hold payment chans.dropLast = true →
      totalEndorsedOnTarget ⟨chans⟩ payment hold ∈ capsList hold payment chans.dropLast ∧
      ∀ x ∈ capsList hold payment chans.dropLast,
        totalEndorsedOnTarget ⟨chans⟩ payment hold ≤ x) ∧
    (allPass hold payment chans.dropLast = false →
      totalEndorsedOnTarget ⟨chans⟩ payment hold = 0) ∧
    (newLadderingAttack ⟨120000, [⟨100⟩, ⟨10⟩, ⟨25⟩, ⟨50⟩]⟩).map
      (fun l => totalEndorsedOnTarget l 30000 300) = .ok 10 := by
  refine ⟨?_, ?_, by decide⟩
  · intro hall
    have hne : chans.dropLast ≠ [] := by
      intro hnil
      have hlen := List.length_dropLast chans
      rw [hnil] at hlen
      simp only [List.length_nil] at hlen
      omega
    obtain ⟨c, cs, hcc⟩ := List.exists_cons_of_ne_nil hne
    simp only [totalEndorsedOnTarget]
    rw [hcc] at hall ⊢
    have hsplit := hall
    simp only [allPass, Bool.and_eq_true, decide_eq_true_eq] at hsplit
    obtain ⟨⟨hth, hcap⟩, hrest⟩ := hsplit
    rw [endorsedWalk_of_allPass_true hold _ _ _ hall]
    have hposrest : ∀ x ∈ capsList hold c.incomingReputation cs, 1 ≤ x :=
      fun x hx => capsList_pos hold (c :: cs) payment hall x
        (by simpa [capsList] using Or.inr hx)
    have h0 : endorsedUpdate 0 (hopCap hold payment c) = hopCap hold payment c := by
      unfold endorsedUpdate
      rw [if_pos (Or.inl rfl)]
    simp only [capsList, List.foldl_cons, h0]
    rw [foldl_endorsedUpdate_eq_min _ _ hcap hposrest]
    constructor
    · rcases foldl_min_mem (capsList hold c.incomingReputation cs) (hopCap hold payment c)
        with h | h
      · rw [h]; exact List.mem_cons_self _ _
      · exact List.mem_cons_of_mem _ h
    · intro x hx
      rcases List.mem_cons.mp hx with rfl | hx'
      · exact foldl_min_le_start _ _
      · exact foldl_min_le_mem _ _ _ hx'
  · intro hfail
    simp only [totalEndorsedOnTarget]
    exact endorsedWalk_of_allPass_false hold _ _ _ hfail

/-- Witness for C2 at the regression ladder: the endorsed total lies in the
capacity list and is a lower bound for it. -/
theorem endorsement_propagation_minimum_witness :
    totalEndorsedOnTarget
        ⟨[⟨120000, 10000⟩, ⟨1200000, 100000⟩, ⟨4800000, 400000⟩, ⟨9600000, 800000⟩]⟩
        30000 300 ∈
      capsList 300 30000
        ([⟨120000, 10000⟩, ⟨1200000, 100000⟩, ⟨4800000, 400000⟩,
          ⟨9600000, 800000⟩] : List channel).dropLast ∧
    ∀ x ∈ capsList 300 30000
        ([⟨120000, 10000⟩, ⟨1200000, 100000⟩, ⟨4800000, 400000⟩,
          ⟨9600000, 800000⟩] : List channel).dropLast,
      totalEndorsedOnTarget
        ⟨[⟨120000, 10000⟩, ⟨1200000, 100000⟩, ⟨4800000, 400000⟩, ⟨9600000, 800000⟩]⟩
        30000 300 ≤ x :=
  (endorsement_propagation_minimum
    [⟨120000, 10000⟩, ⟨1200000, 100000⟩, ⟨4800000, 400000⟩, ⟨9600000, 800000⟩]
    30000 300 (by decide) (by decide) (by decide)).1 (by decide)

/-- C3: for every ladder of at least three channels, endorsed total and
valid hold duration, `attackOutcome` reports the second-to-last channel's
`incomingReputation` as the target's reputation, the last channel's
`outgoingRevenue` as the threshold, and the target's `outgoingRevenue` plus
the slow-jam cost `totalEndorsed * holdDuration * 10 * 60 / 90` as the
direct-acquisition cost; the reputation change is `0` when the target's
reputation is below the threshold and the slow-jam cost otherwise; in the
regression scenario `effective(30000)` is `false`. -/
theorem attack_outcome_fields (chans : List channel) (totalEndorsed hold : Nat)
    (h3 : 3 ≤ chans.length) (hh1 : 1 ≤ hold) (hh2 : hold ≤ 2016) :
    (ladderingAttack.attackOutcome ⟨chans⟩ totalEndorsed hold).targetReputation =
      (chans.getD (chans.length - 2) ⟨0, 0⟩).incomingReputation ∧
    (ladderingAttack.attackOutcome ⟨chans⟩ totalEndorsed hold).targetThreshold =
      (chans.getD (chans.length - 1) ⟨0, 0⟩).outgoingRevenue ∧
    (ladderingAttack.attackOutcome ⟨chans⟩ totalEndorsed hold).targetCost =
      add64 (chans.getD (chans.length - 2) ⟨0, 0⟩).outgoingRevenue
        (mul64 (mul64 (mul64 totalEndorsed hold) 10) 60 / 90) ∧
    ((chans.getD (chans.length - 2) ⟨0, 0⟩).incomingReputation <
        (chans.getD (chans.length - 1) ⟨0, 0⟩).outgoingRevenue →
      (ladderingAttack.attackOutcome ⟨chans⟩ totalEndorsed hold).reputationChange = 0) ∧
    ((chans.getD (chans.length - 1) ⟨0, 0⟩).outgoingRevenue ≤
        (chans.getD (chans.length - 2) ⟨0, 0⟩).incomingReputation →
      (ladderingAttack.attackOutcome ⟨chans⟩ totalEndorsed hold).reputationChange =
        mul64 (mul64 (mul64 totalEndorsed hold) 10) 60 / 90) ∧
    (newLadderingAttack ⟨120000, [⟨100⟩, ⟨10⟩, ⟨25⟩, ⟨50⟩]⟩).map
      (fun l => (l.attackOutcome 10 300).effective 30000) = .ok false := by
  refine ⟨?_, ?_, ?_, ?_, ?_, by decide⟩ <;>
    simp only [ladderingAttack.attackOutcome, htlcReputationCost]
  · split <;> rfl
  · split <;> rfl
  · split <;> rfl
  · intro hlt
    rw [if_pos hlt]
  · intro hle
    rw [if_neg (Nat.not_lt.mpr hle)]

/-- C4 (amended): provided `peaceRevenue` plus the minimum-HTLC floor does
not wrap around the uint64 range, `success` returns `false` with no error
when `cutoffReputation < peaceRevenue + floor` (where the floor is
`htlcReputationCost minimumHTLCReputation 100`), otherwise fails with the
invariant violation exactly when `attackRevenue > peaceRevenue`, and
otherwise returns `true` exactly when
`(cutoffReputation - peaceRevenue) + attackRevenue < peaceRevenue`. -/
theorem surge_success_characterisation (s : surgeAttackOutcome)
    (hc : s.cutoffReputation < uint64Mod) (hpv : s.peaceRevenue < uint64Mod)
    (ha : s.attackRevenue < uint64Mod)
    (hov : s.peaceRevenue + htlcReputationCost minimumHTLCReputation 100 < uint64Mod) :
    (s.cutoffReputation < s.peaceRevenue + htlcReputationCost minimumHTLCReputation 100 →
      s.success = .ok false) ∧
    (s.peaceRevenue + htlcReputationCost minimumHTLCReputation 100 ≤ s.cutoffReputation →
      s.peaceRevenue < s.attackRevenue → s.success = .error .invariantViolation) ∧
    (s.peaceRevenue + htlcReputationCost minimumHTLCReputation 100 ≤ s.cutoffReputation →
      s.attackRevenue ≤ s.peaceRevenue →
      s.success = .ok (decide (s.cutoffReputation - s.peaceRevenue + s.attackRevenue <
        s.peaceRevenue))) := by
  have hadd : add64 s.peaceRevenue (htlcReputationCost minimumHTLCReputation 100) =
      s.peaceRevenue + htlcReputationCost minimumHTLCReputation 100 := by
    simp only [add64]
    exact Nat.mod_eq_of_lt hov
  refine ⟨?_, ?_, ?_⟩
  · intro h
    simp only [surgeAttackOutcome.success, hadd, if_pos h]
  · intro hge hviol
    simp only [surgeAttackOutcome.success, hadd, if_neg (Nat.not_lt.mpr hge), if_pos hviol]
  · intro hge hok
    have hple : s.peaceRevenue ≤ s.cutoffReputation :=
      le_trans (Nat.le_add_right _ _) hge
    have hsub : sub64 s.cutoffReputation s.peaceRevenue =
        s.cutoffReputation - s.peaceRevenue := by
      simp only [sub64, Nat.mod_eq_of_lt hpv]
      rw [show s.cutoffReputation + uint64Mod - s.peaceRevenue =
        s.cutoffReputation - s.peaceRevenue + uint64Mod by omega]
      rw [Nat.add_mod_right]
      exact Nat.mod_eq_of_lt (by omega)
    have hsum : add64 (s.cutoffReputation - s.peaceRevenue) s.attackRevenue =
        s.cutoffReputation - s.peaceRevenue + s.attackRevenue := by
      simp only [add64]
      exact Nat.mod_eq_of_lt (by omega)
    simp only [surgeAttackOutcome.success, hadd, if_neg (Nat.not_lt.mpr hge),
      if_neg (Nat.not_lt.mpr hok), hsub, hsum]

/-- C4 counterexample: on an outcome whose `peaceRevenue` plus the
minimum-HTLC floor wraps around uint64, the claim's guard
`cutoffReputation < peaceRevenue + floor` holds, so the claim requires the
result `false` — but `success` returns `true`. -/
theorem surge_success_overflow_counterexample :
    surgeAttackOutcome.success ⟨2000000000, 18446744073709551615, 0⟩ = .ok true ∧
    2000000000 < 18446744073709551615 + htlcReputationCost minimumHTLCReputation 100 := by
  decide

/-- Witness for the amended C4 on a concrete outcome below the overflow
boundary. -/
theorem surge_success_characterisation_witness :
    surgeAttackOutcome.success ⟨3000000000, 1000000000, 500000000⟩ = .ok false := by
  have h := surge_success_characterisation ⟨3000000000, 1000000000, 500000000⟩
    (by decide) (by decide) (by decide) (by decide)
  rw [h.2.2 (by decide) (by decide)]
  decide

/-- C6: the hold-duration-validating propagator fails with the explicit
`insufficientHoldDuration` error on a zero (or out-of-protocol-range) hold
duration, and on every accepted hold duration it returns the propagated
total while the capacity divisor `holdDuration * 10 * 60` is non-zero. -/
theorem checked_propagator_hold_duration (l : ladderingAttack) (payment hold : Nat) :
    (hold = 0 → totalEndorsedOnTargetChecked l payment hold =
      .error .insufficientHoldDuration) ∧
    (1 ≤ hold → hold ≤ maxHoldDuration →
      totalEndorsedOnTargetChecked l payment hold =
        .ok (totalEndorsedOnTarget l payment hold) ∧
      mul64 (mul64 hold 10) 60 ≠ 0) := by
  constructor
  · intro h0
    simp only [totalEndorsedOnTargetChecked]
    rw [if_pos (Or.inl h0)]
  · intro hlo hhi
    have hnot : ¬ (hold = 0 ∨ maxHoldDuration < hold) := fun hor =>
      hor.elim (fun h0 => (Nat.one_le_iff_ne_zero.mp hlo) h0)
        (fun hgt => (Nat.not_lt.mpr hhi) hgt)
    refine ⟨by simp only [totalEndorsedOnTargetChecked, if_neg hnot], ?_⟩
    have h1 : hold * 10 < uint64Mod :=
      lt_of_le_of_lt (Nat.mul_le_mul_right 10 hhi) (by decide)
    have h2 : hold * 10 * 60 < uint64Mod :=
      lt_of_le_of_lt (Nat.mul_le_mul_right 60 (Nat.mul_le_mul_right 10 hhi)) (by decide)
    simp only [mul64, Nat.mod_eq_of_lt h1, Nat.mod_eq_of_lt h2]
    exact Nat.mul_ne_zero (Nat.mul_ne_zero (Nat.one_le_iff_ne_zero.mp hlo) (by decide))
      (by decide)

/-- Witness for C6 on an empty ladder with holds `0` and `300`. -/
theorem checked_propagator_hold_duration_witness :
    totalEndorsedOnTargetChecked ⟨[]⟩ 5 0 = .error .insufficientHoldDuration ∧
    (totalEndorsedOnTargetChecked ⟨[]⟩ 5 300 = .ok (totalEndorsedOnTarget ⟨[]⟩ 5 300) ∧
      mul64 (mul64 300 10) 60 ≠ 0) :=
  ⟨(checked_propagator_hold_duration ⟨[]⟩ 5 0).1 rfl,
    (checked_propagator_hold_duration ⟨[]⟩ 5 300).2 (by decide) (by decide)⟩

/-- Invariant of the surge accumulation loop: if the running attack revenue
is bounded by the running peacetime revenue and the pending contributions
fit in uint64 on top of it, the final attack revenue stays bounded by the
final peacetime revenue. -/
theorem surgeLoop_invariant (cutoff : Nat) :
    ∀ (l : List Nat) (i twoWeek atk cut : Nat),
      atk ≤ twoWeek →
      twoWeek + (l.map revenueFromReputation).sum < uint64Mod →
      (surgeLoop cutoff i twoWeek atk cut l).2.1 ≤ (surgeLoop cutoff i twoWeek atk cut l).1 := by
  intro l
  induction l with
  | nil => intro i tw atk cut hle _; exact hle
  | cons rep rest ih =>
    intro i tw atk cut hle hov
    simp only [List.map_cons, List.sum_cons] at hov
    have htw : add64 tw (revenueFromReputation rep) = tw + revenueFromReputation rep := by
      simp only [add64]
      exact Nat.mod_eq_of_lt (by omega)
    have hatk : add64 atk (revenueFromReputation rep) = atk + revenueFromReputation rep := by
      simp only [add64]
      exact Nat.mod_eq_of_lt (by omega)
    simp only [surgeLoop, htw, hatk]
    by_cases hi : i ≤ cutoff
    · rw [if_pos hi]
      exact ih (i + 1) _ _ rep (le_trans hle (Nat.le_add_right _ _)) (by omega)
    · rw [if_neg hi]
      exact ih (i + 1) _ _ cut (Nat.add_le_add_right hle _) (by omega)

/-- C8 (amended): for strictly positive peers and an in-range cutoff index,
whenever the peers' peacetime contributions sum below the uint64 modulus
(no wraparound), the outcome of `surgeAttack` satisfies
`attackRevenue ≤ peaceRevenue`. -/
theorem surge_attack_revenue_bounded (honestPeers : List Nat) (cutoffIndex : Nat)
    (hcut : cutoffIndex < honestPeers.length)
    (hpos : ∀ a ∈ honestPeers, 1 ≤ a)
    (hov : (honestPeers.map revenueFromReputation).sum < uint64Mod) :
    ∃ out rest, surgeAttack honestPeers cutoffIndex = .ok (out, rest) ∧
      out.attackRevenue ≤ out.peaceRevenue := by
  have hnot : ¬ honestPeers.length ≤ cutoffIndex := Nat.not_le.mpr hcut
  simp only [surgeAttack, if_neg hnot]
  refine ⟨_, _, rfl, ?_⟩
  have hperm : (honestPeers.insertionSort (· ≤ ·)).Perm honestPeers :=
    List.perm_insertionSort _ _
  have hsum : ((honestPeers.insertionSort (· ≤ ·)).map revenueFromReputation).sum =
      (honestPeers.map revenueFromReputation).sum := (hperm.map _).sum_eq
  exact surgeLoop_invariant cutoffIndex _ 0 0 0 0 (le_refl 0)
    (by rw [Nat.zero_add, hsum]; exact hov)

/-- C8 counterexample: 25 peers of value `2^64 - 2` and cutoff rank `0`:
the peacetime revenue accumulator wraps around uint64, leaving
`attackRevenue` (the 24 peers above the cutoff) far larger than
`peaceRevenue`. -/
theorem surge_attack_revenue_overflow_counterexample :
    surgeAttack (List.replicate 25 18446744073709551614) 0 =
      .ok (⟨18446744073709551614, 768614336404564634, 18446744073709551600⟩,
        List.replicate 25 18446744073709551614) ∧
    (768614336404564634 : Nat) < 18446744073709551600 := by
  decide

/-- Witness for the amended C8 on three small peers with cutoff rank `1`. -/
theorem surge_attack_revenue_bounded_witness :
    ∃ out rest, surgeAttack [1, 2, 3] 1 = .ok (out, rest) ∧
      out.attackRevenue ≤ out.peaceRevenue :=
  surge_attack_revenue_bounded [1, 2, 3] 1 (by decide) (by decide) (by decide)

/-- C9 counterexample: on the ladder built from `firstNodeTraffic = 9900`,
`trafficFlows = [100, 99, 9]` at hold duration `3`, the end-to-end
effectiveness of the attack is `true` at payment `1592`, `false` at `1593`,
`true` again at `1605` and `false` again at `1613` — two true-to-false
transitions as the payment increases. -/
theorem ladder_effective_oscillates :
    (newLadderingAttack ⟨9900, [⟨100⟩, ⟨99⟩, ⟨9⟩]⟩).map
      (fun l => [ladderRunEffective l 1592 3, ladderRunEffective l 1593 3,
        ladderRunEffective l 1605 3, ladderRunEffective l 1613 3]) =
      .ok [true, false, true, false] ∧
    1592 < 1593 ∧ 1593 < 1605 ∧ 1605 < 1613 := by
  decide

/-- C9 (amended): for a fixed attack outcome (the endorsed total computed
once, not recomputed per payment), `effective` is antitone in the payment:
once false it stays false, so it transitions from true to false at most
once as the payment increases. -/
theorem effective_antitone_for_fixed_outcome (a : attackOutcome) (p q : Nat)
    (hpq : p ≤ q) (hq : a.effective q = true) : a.effective p = true := by
  simp only [attackOutcome.effective, attackOutcome.ladderCheaper, Bool.and_eq_true,
    decide_eq_true_eq] at hq ⊢
  exact ⟨Nat.lt_of_le_of_lt hpq hq.1, hq.2⟩

/-- Witness for the amended C9 on a concrete outcome and payments. -/
theorem effective_antitone_for_fixed_outcome_witness :
    attackOutcome.effective ⟨5, 3, 4, 10⟩ 2 = true :=
  effective_antitone_for_fixed_outcome ⟨5, 3, 4, 10⟩ 2 6 (by decide) (by decide)

/-- C10 counterexample: `surgeAttack` sorts the caller's peer slice in
place: called on `[2, 1]` it leaves the slice as `[1, 2]`, reordering the
caller's elements. -/
theorem surge_attack_sorts_input_counterexample :
    surgeAttack [2, 1] 0 = .ok (⟨1, 0, 0⟩, [1, 2]) ∧
    ([1, 2] : List Nat) ≠ [2, 1] := by
  decide

/-- C10 (amended): `surgeAttack` leaves the caller's peer sequence as an
ascending in-place sort of itself — the multiset of elements is preserved
(a permutation, nothing modified or lost) but not their order. -/
theorem surge_attack_permutes_and_sorts (honestPeers : List Nat) (cutoffIndex : Nat)
    (hcut : cutoffIndex < honestPeers.length) :
    ∃ out final, surgeAttack honestPeers cutoffIndex = .ok (out, final) ∧
      final.Perm honestPeers ∧ final.Sorted (· ≤ ·) := by
  have hnot : ¬ honestPeers.length ≤ cutoffIndex := Nat.not_le.mpr hcut
  simp only [surgeAttack, if_neg hnot]
  exact ⟨_, _, rfl, List.perm_insertionSort _ _, List.sorted_insertionSort _ _⟩

/-- Witness for the amended C10 on the peer list `[3, 1, 2]`. -/
theorem surge_attack_permutes_and_sorts_witness :
    ∃ out final, surgeAttack [3, 1, 2] 0 = .ok (out, final) ∧
      final.Perm [3, 1, 2] ∧ final.Sorted (· ≤ ·) :=
  surge_attack_permutes_and_sorts [3, 1, 2] 0 (by decide)

/-- Witness for C3 at the regression ladder with endorsed total `10` and
hold `300`: the direct-acquisition cost is the target's revenue plus the
slow-jam cost. -/
theorem attack_outcome_fields_witness :
    (ladderingAttack.attackOutcome ⟨[⟨120000, 10000⟩, ⟨1200000, 100000⟩, ⟨4800000, 400000⟩,
        ⟨9600000, 800000⟩]⟩ 10 300).targetCost =
      add64 400000 (mul64 (mul64 (mul64 10 300) 10) 60 / 90) := by
  have h := attack_outcome_fields [⟨120000, 10000⟩, ⟨1200000, 100000⟩, ⟨4800000, 400000⟩,
    ⟨9600000, 800000⟩] 10 300 (by decide) (by decide) (by decide)
  exact h.2.2.1.trans (by decide)
